import Mathlib

/-!
Shallow embedding of the displacement-map generator of
`src/my-app/components/LiquidGlass.tsx` (the `updateShader` routine and its
helpers `smoothStep`, `length`, `roundedRectSDF`), together with proofs of
the specified properties.

JavaScript numbers are modelled by real numbers.  The two places where IEEE
semantics matters are modelled explicitly:
* division by zero in the encoding pass (`raw / maxScale` with
  `maxScale = 0` yields `NaN` for `raw = 0` and `±Infinity` otherwise);
* stores into the `Uint8ClampedArray` (clamp to `[0, 255]`, round to
  nearest with ties to even, `NaN` stored as `0`).
-/

namespace LiquidGlass

/-- `smoothStep(a, b, t)` from the source: clamp `(t - a) / (b - a)` to
`[0, 1]`, then apply the cubic `t * t * (3 - 2 * t)`. -/
noncomputable def smoothStep (a b t : ℝ) : ℝ :=
  let u := max 0 (min 1 ((t - a) / (b - a)))
  u * u * (3 - 2 * u)

/-- `length(x, y) = Math.sqrt(x * x + y * y)` from the source. -/
noncomputable def length (x y : ℝ) : ℝ :=
  Real.sqrt (x * x + y * y)

/-- `roundedRectSDF(x, y, w, h, radius)` from the source. -/
noncomputable def roundedRectSDF (x y w h radius : ℝ) : ℝ :=
  let qx := |x| - w + radius
  let qy := |y| - h + radius
  min (max qx qy) 0 + length (max qx 0) (max qy 0) - radius

/-- The per-pixel weight of `updateShader`: with `uv = (x/w, y/h)` and
`(ix, iy) = (uv.x - 0.5, uv.y - 0.5)`, the code computes
`distanceToEdge = roundedRectSDF(ix, iy, 0.3, 0.2, elasticity)`,
`displacement = smoothStep(0.8, 0, distanceToEdge - 0.15)` and
`scaled = smoothStep(0, 1, displacement)`. -/
noncomputable def scaledWeight (w h : ℕ) (elasticity : ℝ) (x y : ℕ) : ℝ :=
  let ix := (x : ℝ) / w - 0.5
  let iy := (y : ℝ) / h - 0.5
  let distanceToEdge := roundedRectSDF ix iy 0.3 0.2 elasticity
  let displacement := smoothStep 0.8 0 (distanceToEdge - 0.15)
  smoothStep 0 1 displacement

/-- The raw displacement `(dx, dy)` of one pixel in the first pass of
`updateShader`: `pos = (ix * scaled + 0.5, iy * scaled + 0.5)` and
`dx = pos.x * w - x`, `dy = pos.y * h - y`. -/
noncomputable def pixelDisplacement (w h : ℕ) (elasticity : ℝ) (x y : ℕ) : ℝ × ℝ :=
  let ix := (x : ℝ) / w - 0.5
  let iy := (y : ℝ) / h - 0.5
  let scaled := scaledWeight w h elasticity x y
  let posX := ix * scaled + 0.5
  let posY := iy * scaled + 0.5
  (posX * w - (x : ℝ), posY * h - (y : ℝ))

/-- The value of `maxScale` at the end of the first pass of `updateShader`,
before the `maxScale *= 0.5 * displacementScale` line: starting from `0`,
the loop over pixel indices `i = 0, …, w*h - 1` (with `x = i % w`,
`y = i / w`) takes `maxScale = Math.max(maxScale, Math.abs(dx), Math.abs(dy))`. -/
noncomputable def rawMaxScale (w h : ℕ) (elasticity : ℝ) : ℝ :=
  (List.range (w * h)).foldl
    (fun acc i =>
      max (max acc |(pixelDisplacement w h elasticity (i % w) (i / w)).1|)
        |(pixelDisplacement w h elasticity (i % w) (i / w)).2|)
    0

/-- `maxScale` after the line `maxScale *= 0.5 * displacementScale`. -/
noncomputable def maxScale (w h : ℕ) (elasticity displacementScale : ℝ) : ℝ :=
  rawMaxScale w h elasticity * (0.5 * displacementScale)

/-- Round to the nearest integer, ties to even — the rounding mode used by
`Uint8ClampedArray` stores (ECMAScript `ToUint8Clamp`). -/
noncomputable def roundHalfEven (v : ℝ) : ℤ :=
  if v - ⌊v⌋ < 1 / 2 then ⌊v⌋
  else if 1 / 2 < v - ⌊v⌋ then ⌊v⌋ + 1
  else if Even ⌊v⌋ then ⌊v⌋ else ⌊v⌋ + 1

/-- A store of a finite value into a `Uint8ClampedArray` cell: values below
`0` saturate to `0`, values above `255` saturate to `255`, in-range values
are rounded to the nearest integer with ties to even. -/
noncomputable def clampToByte (v : ℝ) : ℕ :=
  if v ≤ 0 then 0
  else if 255 ≤ v then 255
  else (roundHalfEven v).toNat

/-- One channel of the second (encoding) pass of `updateShader`: the code
computes `r = raw / maxScale + 0.5` and stores `r * 255` into the
`Uint8ClampedArray`.  When `maxScale = 0`, IEEE division gives `NaN` for
`raw = 0` (stored as `0`) and `±Infinity` otherwise (saturating to `255`
resp. `0`); otherwise the finite value `(raw / maxScale + 0.5) * 255` is
stored with clamping and rounding. -/
noncomputable def encodeByte (raw ms : ℝ) : ℕ :=
  if ms = 0 then
    if raw = 0 then 0
    else if 0 < raw then 255
    else 0
  else clampToByte ((raw / ms + 0.5) * 255)

/-- The four bytes `data[4*i .. 4*i+3]` written for pixel index `i`:
`[r, g, 0, 255]` with `r`, `g` the encoded `dx`, `dy` channels. -/
noncomputable def texelBytes (w h : ℕ) (elasticity displacementScale : ℝ) (i : ℕ) : List ℕ :=
  let ms := maxScale w h elasticity displacementScale
  let dxy := pixelDisplacement w h elasticity (i % w) (i / w)
  [encodeByte dxy.1 ms, encodeByte dxy.2 ms, 0, 255]

/-- The full `data` buffer produced by `updateShader` for dimensions
`(w, h)` and parameters `(elasticity, displacementScale)`: the
concatenation of the four bytes of every pixel, in pixel-index order. -/
noncomputable def updateShaderData (w h : ℕ) (elasticity displacementScale : ℝ) : List ℕ :=
  (List.range (w * h)).flatMap (texelBytes w h elasticity displacementScale)

/-! ### Basic evaluation helpers -/

lemma length_eq {x y c : ℝ} (hc : 0 ≤ c) (h : x * x + y * y = c * c) :
    length x y = c := by
  rw [length, h]
  exact Real.sqrt_mul_self hc

lemma smoothStep_of_ratio {a b t r : ℝ} (h : (t - a) / (b - a) = r)
    (h0 : 0 ≤ r) (h1 : r ≤ 1) :
    smoothStep a b t = r * r * (3 - 2 * r) := by
  rw [smoothStep, h, min_eq_right h1, max_eq_right h0]

lemma smoothStep_of_one_le {a b t : ℝ} (h : 1 ≤ (t - a) / (b - a)) :
    smoothStep a b t = 1 := by
  rw [smoothStep, min_eq_left h, max_eq_right zero_le_one]
  norm_num

lemma smoothStep_bounds (a b t : ℝ) :
    0 ≤ smoothStep a b t ∧ smoothStep a b t ≤ 1 := by
  rw [smoothStep]
  set u := max 0 (min 1 ((t - a) / (b - a))) with hu
  have h0 : 0 ≤ u := le_max_left _ _
  have h1 : u ≤ 1 := max_le zero_le_one (min_le_left _ _)
  constructor
  · nlinarith
  · nlinarith [sq_nonneg (1 - u)]

lemma scaledWeight_bounds (w h : ℕ) (e : ℝ) (x y : ℕ) :
    0 ≤ scaledWeight w h e x y ∧ scaledWeight w h e x y ≤ 1 := by
  rw [scaledWeight]
  exact smoothStep_bounds 0 1 _

lemma scaledWeight_eval {w h x y : ℕ} {e : ℝ} (u v : ℝ)
    (hx : (x : ℝ) / w - 0.5 = u) (hy : (y : ℝ) / h - 0.5 = v) :
    scaledWeight w h e x y =
      smoothStep 0 1 (smoothStep 0.8 0 (roundedRectSDF u v 0.3 0.2 e - 0.15)) := by
  rw [scaledWeight, hx, hy]

/-- The displacement of a pixel in factored form: with `s` the weight of the
pixel, `dx = (x - w/2) * (s - 1)` and `dy = (y - h/2) * (s - 1)`. -/
lemma pixelDisplacement_factored (w h : ℕ) (e : ℝ) (x y : ℕ)
    (hw : w ≠ 0) (hh : h ≠ 0) :
    pixelDisplacement w h e x y =
      (((x : ℝ) - w / 2) * (scaledWeight w h e x y - 1),
       ((y : ℝ) - h / 2) * (scaledWeight w h e x y - 1)) := by
  have hw0 : ((w : ℝ)) ≠ 0 := Nat.cast_ne_zero.mpr hw
  have hh0 : ((h : ℝ)) ≠ 0 := Nat.cast_ne_zero.mpr hh
  rw [pixelDisplacement, Prod.mk.injEq]
  constructor <;> field_simp <;> ring

/-! ### Byte-store evaluation helpers -/

lemma clampToByte_of_nonpos {v : ℝ} (h : v ≤ 0) : clampToByte v = 0 := by
  rw [clampToByte, if_pos h]

lemma clampToByte_of_ge {v : ℝ} (h : 255 ≤ v) : clampToByte v = 255 := by
  have h0 : ¬v ≤ 0 := by linarith
  rw [clampToByte, if_neg h0, if_pos h]

lemma clampToByte_round_down {v : ℝ} {n : ℕ} (h0 : 0 < v) (h255 : v < 255)
    (hn : (n : ℝ) ≤ v) (hhalf : v < n + 1 / 2) : clampToByte v = n := by
  have hfl : ⌊v⌋ = (n : ℤ) := by
    rw [Int.floor_eq_iff]
    constructor
    · exact_mod_cast hn
    · push_cast
      linarith
  rw [clampToByte, if_neg (by linarith), if_neg (by linarith), roundHalfEven, hfl,
    if_pos (by push_cast; linarith)]
  omega

lemma clampToByte_round_up {v : ℝ} {n : ℕ} (h0 : 0 < v) (h255 : v < 255)
    (hhalf : (n : ℝ) + 1 / 2 < v) (hn1 : v < n + 1) : clampToByte v = n + 1 := by
  have hfl : ⌊v⌋ = (n : ℤ) := by
    rw [Int.floor_eq_iff]
    constructor
    · push_cast
      linarith
    · push_cast
      linarith
  rw [clampToByte, if_neg (by linarith), if_neg (by linarith), roundHalfEven, hfl,
    if_neg (by push_cast; linarith), if_pos (by push_cast; linarith)]
  omega

lemma clampToByte_half_odd {v : ℝ} {n : ℕ} (h0 : 0 < v) (h255 : v < 255)
    (hhalf : v = (n : ℝ) + 1 / 2) (hodd : ¬Even n) : clampToByte v = n + 1 := by
  have hfl : ⌊v⌋ = (n : ℤ) := by
    rw [Int.floor_eq_iff]
    constructor
    · push_cast
      linarith
    · push_cast
      linarith
  have heven : ¬Even ((n : ℤ)) := by
    rwa [Int.even_coe_nat]
  rw [clampToByte, if_neg (by linarith), if_neg (by linarith), roundHalfEven, hfl,
    if_neg (by push_cast; linarith), if_neg (by push_cast; linarith), if_neg heven]
  omega

lemma encodeByte_ms_zero_pos {raw : ℝ} (h : 0 < raw) : encodeByte raw 0 = 255 := by
  rw [encodeByte, if_pos rfl, if_neg (by linarith), if_pos h]

lemma encodeByte_ms_zero_zero : encodeByte 0 0 = 0 := by
  rw [encodeByte, if_pos rfl, if_pos rfl]

lemma encodeByte_of_ms_ne {raw ms : ℝ} (h : ms ≠ 0) :
    encodeByte raw ms = clampToByte ((raw / ms + 0.5) * 255) := by
  rw [encodeByte, if_neg h]

lemma clampToByte_le (v : ℝ) : clampToByte v ≤ 255 := by
  rw [clampToByte]
  split
  · omega
  · split
    · omega
    · rename_i h0 h255
      have hfl : roundHalfEven v ≤ 255 := by
        have hv : v < 255 := lt_of_not_le h255
        have h1 : (⌊v⌋ : ℝ) ≤ v := Int.floor_le v
        have h2 : ⌊v⌋ ≤ 254 := by
          by_contra hc
          push_neg at hc
          have : (255 : ℝ) ≤ ⌊v⌋ := by exact_mod_cast hc
          linarith
        rw [roundHalfEven]
        split
        · omega
        · split
          · omega
          · split <;> omega
      omega

lemma encodeByte_le (raw ms : ℝ) : encodeByte raw ms ≤ 255 := by
  rw [encodeByte]
  split
  · split
    · omega
    · split <;> omega
  · exact clampToByte_le _

/-! ### The running maximum of the first pass -/

section FoldMax

variable (f g : ℕ → ℝ)

/-- Abbreviation for one step of the running maximum
`maxScale = Math.max(maxScale, Math.abs(dx), Math.abs(dy))`. -/
noncomputable def maxStep (acc : ℝ) (i : ℕ) : ℝ :=
  max (max acc (f i)) (g i)

lemma le_foldl_maxStep (l : List ℕ) : ∀ c : ℝ, c ≤ l.foldl (maxStep f g) c := by
  induction l with
  | nil => intro c; exact le_refl c
  | cons a t ih =>
    intro c
    calc c ≤ maxStep f g c a := le_max_of_le_left (le_max_left _ _)
    _ ≤ t.foldl (maxStep f g) (maxStep f g c a) := ih _

lemma mem_le_foldl_maxStep (l : List ℕ) :
    ∀ c : ℝ, ∀ i ∈ l, max (f i) (g i) ≤ l.foldl (maxStep f g) c := by
  induction l with
  | nil => intro c i hi; exact absurd hi (List.not_mem_nil i)
  | cons a t ih =>
    intro c i hi
    rcases List.mem_cons.mp hi with rfl | hit
    · calc max (f i) (g i) ≤ maxStep f g c i := by
            apply max_le
            · exact le_max_of_le_left (le_max_right _ _)
            · exact le_max_right _ _
      _ ≤ t.foldl (maxStep f g) (maxStep f g c i) := le_foldl_maxStep f g t _
    · exact ih _ i hit

lemma foldl_maxStep_attained (l : List ℕ) :
    ∀ c : ℝ, (∃ i ∈ l, l.foldl (maxStep f g) c = max (f i) (g i)) ∨
      l.foldl (maxStep f g) c = c := by
  induction l with
  | nil => intro c; exact Or.inr rfl
  | cons a t ih =>
    intro c
    have hstep : maxStep f g c a = max c (max (f a) (g a)) := by
      rw [maxStep, max_assoc]
    rcases ih (maxStep f g c a) with ⟨i, hi, heq⟩ | heq
    · exact Or.inl ⟨i, List.mem_cons_of_mem a hi, heq⟩
    · rcases le_total c (max (f a) (g a)) with hle | hle
      · refine Or.inl ⟨a, List.mem_cons_self a t, ?_⟩
        rw [List.foldl_cons, heq, hstep, max_eq_right hle]
      · refine Or.inr ?_
        rw [List.foldl_cons, heq, hstep, max_eq_left hle]

end FoldMax

/-- `rawMaxScale` as a fold of `maxStep`. -/
lemma rawMaxScale_eq_foldl (w h : ℕ) (e : ℝ) :
    rawMaxScale w h e =
      (List.range (w * h)).foldl
        (maxStep (fun i => |(pixelDisplacement w h e (i % w) (i / w)).1|)
          (fun i => |(pixelDisplacement w h e (i % w) (i / w)).2|)) 0 := by
  rw [rawMaxScale]
  rfl

lemma rawMaxScale_nonneg (w h : ℕ) (e : ℝ) : 0 ≤ rawMaxScale w h e := by
  rw [rawMaxScale_eq_foldl]
  exact le_foldl_maxStep _ _ _ 0

lemma le_rawMaxScale (w h : ℕ) (e : ℝ) {i : ℕ} (hi : i < w * h) :
    max |(pixelDisplacement w h e (i % w) (i / w)).1|
      |(pixelDisplacement w h e (i % w) (i / w)).2| ≤ rawMaxScale w h e := by
  rw [rawMaxScale_eq_foldl]
  exact mem_le_foldl_maxStep
    (fun i => |(pixelDisplacement w h e (i % w) (i / w)).1|)
    (fun i => |(pixelDisplacement w h e (i % w) (i / w)).2|)
    (List.range (w * h)) 0 i (List.mem_range.mpr hi)

lemma rawMaxScale_attained (w h : ℕ) (e : ℝ) (hwh : 1 ≤ w * h) :
    ∃ i < w * h,
      rawMaxScale w h e =
        max |(pixelDisplacement w h e (i % w) (i / w)).1|
          |(pixelDisplacement w h e (i % w) (i / w)).2| := by
  rw [rawMaxScale_eq_foldl]
  rcases foldl_maxStep_attained
      (fun i => |(pixelDisplacement w h e (i % w) (i / w)).1|)
      (fun i => |(pixelDisplacement w h e (i % w) (i / w)).2|)
      (List.range (w * h)) 0 with ⟨i, hi, heq⟩ | heq
  · exact ⟨i, List.mem_range.mp hi, heq⟩
  · refine ⟨0, by omega, ?_⟩
    have h0 : (0 : ℕ) ∈ List.range (w * h) := List.mem_range.mpr (by omega)
    have hub := mem_le_foldl_maxStep
      (fun i => |(pixelDisplacement w h e (i % w) (i / w)).1|)
      (fun i => |(pixelDisplacement w h e (i % w) (i / w)).2|)
      (List.range (w * h)) 0 0 h0
    have hge : (0 : ℝ) ≤ max |(pixelDisplacement w h e (0 % w) (0 / w)).1|
        |(pixelDisplacement w h e (0 % w) (0 / w)).2| :=
      le_max_of_le_left (abs_nonneg _)
    rw [heq] at hub ⊢
    linarith

/-! ### Buffer structure helpers -/

lemma texelBytes_length (w h : ℕ) (e ds : ℝ) (i : ℕ) :
    (texelBytes w h e ds i).length = 4 := rfl

lemma flatMap_length_four (f : ℕ → List ℕ) (hf : ∀ i, (f i).length = 4)
    (l : List ℕ) : (l.flatMap f).length = 4 * l.length := by
  induction l with
  | nil => simp
  | cons a t ih =>
    rw [List.flatMap_cons, List.length_append, hf, ih, List.length_cons]
    ring

lemma getElem_flatMap_four (f : ℕ → List ℕ) (hf : ∀ i, (f i).length = 4)
    (l : List ℕ) :
    ∀ (p k : ℕ), k < 4 →
      (l.flatMap f)[4 * p + k]? = (match l[p]? with
        | some i => (f i)[k]?
        | none => none) := by
  induction l with
  | nil => intro p k hk; simp
  | cons a t ih =>
    intro p k hk
    rw [List.flatMap_cons]
    match p with
    | 0 =>
      have hlt : 4 * 0 + k < (f a).length := by rw [hf]; omega
      rw [List.getElem?_append, if_pos hlt]
      simp
    | p + 1 =>
      have hh4 : (f a).length = 4 := hf a
      rw [List.getElem?_append, hh4, if_neg (by omega)]
      have hidx : 4 * (p + 1) + k - 4 = 4 * p + k := by omega
      rw [hidx, ih p k hk]
      simp

lemma mem_flatMap_texel {w h : ℕ} {e ds : ℝ} {b : ℕ}
    (hb : b ∈ updateShaderData w h e ds) : b ≤ 255 := by
  rw [updateShaderData] at hb
  rcases List.mem_flatMap.mp hb with ⟨i, _, hmem⟩
  rw [texelBytes] at hmem
  simp only [List.mem_cons, List.not_mem_nil, or_false] at hmem
  rcases hmem with rfl | rfl | rfl | rfl
  · exact encodeByte_le _ _
  · exact encodeByte_le _ _
  · omega
  · omega

/-! ### Concrete evaluations at `elasticity = 1/10`

The corner coordinates were chosen so that every square root in sight is a
perfect square (`(3/10)^2 + (4/10)^2 = (5/10)^2`). -/

lemma roundedRectSDF_eval (x y radius qx qy m c : ℝ)
    (hqx : |x| - 0.3 + radius = qx) (hqy : |y| - 0.2 + radius = qy)
    (hm : min (max qx qy) 0 = m) (hc : 0 ≤ c)
    (hlen : max qx 0 * max qx 0 + max qy 0 * max qy 0 = c * c) :
    roundedRectSDF x y 0.3 0.2 radius = m + c - radius := by
  simp only [roundedRectSDF]
  rw [hqx, hqy, hm, length_eq hc hlen]

lemma sdf_corner : roundedRectSDF (-(1 / 2)) (-(1 / 2)) 0.3 0.2 (1 / 10) = 2 / 5 := by
  have h := roundedRectSDF_eval (-(1 / 2)) (-(1 / 2)) (1 / 10) (3 / 10) (2 / 5) 0 (1 / 2)
    (by norm_num [abs_of_nonneg]) (by norm_num [abs_of_nonneg]) (by norm_num)
    (by norm_num) (by norm_num)
  rw [h]
  norm_num

lemma sdf_midtop : roundedRectSDF 0 (-(1 / 2)) 0.3 0.2 (1 / 10) = 3 / 10 := by
  have h := roundedRectSDF_eval 0 (-(1 / 2)) (1 / 10) (-(1 / 5)) (2 / 5) 0 (2 / 5)
    (by norm_num [abs_of_nonneg]) (by norm_num [abs_of_nonneg]) (by norm_num)
    (by norm_num) (by norm_num)
  rw [h]
  norm_num

lemma sdf_midleft : roundedRectSDF (-(1 / 2)) 0 0.3 0.2 (1 / 10) = 1 / 5 := by
  have h := roundedRectSDF_eval (-(1 / 2)) 0 (1 / 10) (3 / 10) (-(1 / 10)) 0 (3 / 10)
    (by norm_num [abs_of_nonneg]) (by norm_num [abs_of_nonneg]) (by norm_num)
    (by norm_num) (by norm_num)
  rw [h]
  norm_num

lemma sdf_center : roundedRectSDF 0 0 0.3 0.2 (1 / 10) = -(1 / 5) := by
  have h := roundedRectSDF_eval 0 0 (1 / 10) (-(1 / 5)) (-(1 / 10)) (-(1 / 10)) 0
    (by norm_num [abs_of_nonneg]) (by norm_num [abs_of_nonneg]) (by norm_num)
    (by norm_num) (by norm_num)
  rw [h]
  norm_num

lemma sdf_inside_q : roundedRectSDF (-(1 / 4)) 0 0.3 0.2 (1 / 10) = -(1 / 20) := by
  have h := roundedRectSDF_eval (-(1 / 4)) 0 (1 / 10) (1 / 20) (-(1 / 10)) 0 (1 / 20)
    (by norm_num [abs_of_nonneg]) (by norm_num [abs_of_nonneg]) (by norm_num)
    (by norm_num) (by norm_num)
  rw [h]
  norm_num

/-- The chained smoothsteps applied to the corner SDF value `2/5`. -/
lemma scaled_of_sdf_corner :
    smoothStep 0 1 (smoothStep 0.8 0 ((2 : ℝ) / 5 - 0.15)) =
      3709019171 / 4294967296 := by
  have h1 : smoothStep 0.8 0 ((2 : ℝ) / 5 - 0.15) = 1573 / 2048 := by
    rw [smoothStep_of_ratio (r := 11 / 16) (by norm_num) (by norm_num) (by norm_num)]
    norm_num
  rw [h1, smoothStep_of_ratio (r := 1573 / 2048) (by norm_num) (by norm_num) (by norm_num)]
  norm_num

lemma scaled_of_sdf_midtop :
    smoothStep 0 1 (smoothStep 0.8 0 ((3 : ℝ) / 10 - 0.15)) =
      4191983653 / 4294967296 := by
  have h1 : smoothStep 0.8 0 ((3 : ℝ) / 10 - 0.15) = 1859 / 2048 := by
    rw [smoothStep_of_ratio (r := 13 / 16) (by norm_num) (by norm_num) (by norm_num)]
    norm_num
  rw [h1, smoothStep_of_ratio (r := 1859 / 2048) (by norm_num) (by norm_num) (by norm_num)]
  norm_num

lemma scaled_of_sdf_midleft :
    smoothStep 0 1 (smoothStep 0.8 0 ((1 : ℝ) / 5 - 0.15)) =
      4293354375 / 4294967296 := by
  have h1 : smoothStep 0.8 0 ((1 : ℝ) / 5 - 0.15) = 2025 / 2048 := by
    rw [smoothStep_of_ratio (r := 15 / 16) (by norm_num) (by norm_num) (by norm_num)]
    norm_num
  rw [h1, smoothStep_of_ratio (r := 2025 / 2048) (by norm_num) (by norm_num) (by norm_num)]
  norm_num

/-- Any SDF value at most `0.15` is mapped to the weight `1` by the chain. -/
lemma scaled_of_sdf_deep {d : ℝ} (hd : d ≤ 0.15) :
    smoothStep 0 1 (smoothStep 0.8 0 (d - 0.15)) = 1 := by
  have h1 : smoothStep 0.8 0 (d - 0.15) = 1 := by
    apply smoothStep_of_one_le
    rw [le_div_iff_of_neg (by norm_num : (0 : ℝ) - 0.8 < 0)]
    linarith
  rw [h1]
  apply smoothStep_of_one_le
  norm_num

/-! ### Per-pixel values of the small concrete instances -/

lemma scaled_1x1_00 :
    scaledWeight 1 1 (1 / 10) 0 0 = 3709019171 / 4294967296 := by
  rw [scaledWeight_eval (-(1 / 2)) (-(1 / 2)) (by push_cast; norm_num)
    (by push_cast; norm_num), sdf_corner, scaled_of_sdf_corner]

lemma scaled_2x2_00 :
    scaledWeight 2 2 (1 / 10) 0 0 = 3709019171 / 4294967296 := by
  rw [scaledWeight_eval (-(1 / 2)) (-(1 / 2)) (by push_cast; norm_num)
    (by push_cast; norm_num), sdf_corner, scaled_of_sdf_corner]

lemma scaled_2x2_10 :
    scaledWeight 2 2 (1 / 10) 1 0 = 4191983653 / 4294967296 := by
  rw [scaledWeight_eval 0 (-(1 / 2)) (by push_cast; norm_num)
    (by push_cast; norm_num), sdf_midtop, scaled_of_sdf_midtop]

lemma scaled_2x2_01 :
    scaledWeight 2 2 (1 / 10) 0 1 = 4293354375 / 4294967296 := by
  rw [scaledWeight_eval (-(1 / 2)) 0 (by push_cast; norm_num)
    (by push_cast; norm_num), sdf_midleft, scaled_of_sdf_midleft]

lemma scaled_2x2_11 : scaledWeight 2 2 (1 / 10) 1 1 = 1 := by
  rw [scaledWeight_eval 0 0 (by push_cast; norm_num)
    (by push_cast; norm_num), sdf_center, scaled_of_sdf_deep (by norm_num)]

lemma scaled_4x2_11 : scaledWeight 4 2 (1 / 10) 1 1 = 1 := by
  rw [scaledWeight_eval (-(1 / 4)) 0 (by push_cast; norm_num)
    (by push_cast; norm_num), sdf_inside_q, scaled_of_sdf_deep (by norm_num)]

lemma pd_1x1_00 :
    pixelDisplacement 1 1 (1 / 10) 0 0 =
      (585948125 / 8589934592, 585948125 / 8589934592) := by
  rw [pixelDisplacement_factored 1 1 (1 / 10) 0 0 one_ne_zero one_ne_zero,
    scaled_1x1_00]
  norm_num

lemma pd_2x2_00 :
    pixelDisplacement 2 2 (1 / 10) 0 0 =
      (585948125 / 4294967296, 585948125 / 4294967296) := by
  rw [pixelDisplacement_factored 2 2 (1 / 10) 0 0 two_ne_zero two_ne_zero,
    scaled_2x2_00]
  norm_num

lemma pd_2x2_10 :
    pixelDisplacement 2 2 (1 / 10) 1 0 = (0, 102983643 / 4294967296) := by
  rw [pixelDisplacement_factored 2 2 (1 / 10) 1 0 two_ne_zero two_ne_zero,
    scaled_2x2_10]
  norm_num

lemma pd_2x2_01 :
    pixelDisplacement 2 2 (1 / 10) 0 1 = (1612921 / 4294967296, 0) := by
  rw [pixelDisplacement_factored 2 2 (1 / 10) 0 1 two_ne_zero two_ne_zero,
    scaled_2x2_01]
  norm_num

lemma pd_2x2_11 : pixelDisplacement 2 2 (1 / 10) 1 1 = (0, 0) := by
  rw [pixelDisplacement_factored 2 2 (1 / 10) 1 1 two_ne_zero two_ne_zero,
    scaled_2x2_11]
  norm_num

lemma pd_4x2_11 : pixelDisplacement 4 2 (1 / 10) 1 1 = (0, 0) := by
  rw [pixelDisplacement_factored 4 2 (1 / 10) 1 1 (by norm_num) two_ne_zero,
    scaled_4x2_11]
  norm_num

/-! ### `maxScale` and the encoded buffers of the small instances -/

lemma rawMaxScale_1x1 :
    rawMaxScale 1 1 (1 / 10) = 585948125 / 8589934592 := by
  have hr : List.range (1 * 1) = [0] := rfl
  rw [rawMaxScale, hr]
  simp only [List.foldl_cons, List.foldl_nil, Nat.zero_mod, Nat.zero_div]
  rw [pd_1x1_00]
  norm_num [abs_of_nonneg]

lemma rawMaxScale_2x2 :
    rawMaxScale 2 2 (1 / 10) = 585948125 / 4294967296 := by
  have hr : List.range (2 * 2) = [0, 1, 2, 3] := rfl
  rw [rawMaxScale, hr]
  simp only [List.foldl_cons, List.foldl_nil]
  norm_num only
  rw [pd_2x2_00, pd_2x2_10, pd_2x2_01, pd_2x2_11]
  norm_num [abs_of_nonneg]

lemma maxScale_1x1_ds0 : maxScale 1 1 (1 / 10) 0 = 0 := by
  rw [maxScale]
  ring

lemma maxScale_2x2 : maxScale 2 2 (1 / 10) 1 = 585948125 / 8589934592 := by
  rw [maxScale, rawMaxScale_2x2]
  norm_num

/-- The full buffer of the degenerate instance `w = h = 1`,
`elasticity = 1/10`, `displacementScale = 0`: both displacement channels go
through a division by `maxScale = 0` of the positive raw values, that is,
through `+Infinity`, and saturate to `255`. -/
lemma shader_1x1_ds0 :
    updateShaderData 1 1 (1 / 10) 0 = [255, 255, 0, 255] := by
  have hr : List.range (1 * 1) = [0] := rfl
  rw [updateShaderData, hr]
  simp only [List.flatMap_cons, List.flatMap_nil, List.append_nil, texelBytes,
    Nat.zero_mod, Nat.zero_div]
  rw [maxScale_1x1_ds0, pd_1x1_00]
  rw [encodeByte_ms_zero_pos (by norm_num)]

/-- The full buffer of the instance `w = h = 2`, `elasticity = 1/10`,
`displacementScale = 1`. -/
lemma shader_2x2 :
    updateShaderData 2 2 (1 / 10) 1 =
      [255, 255, 0, 255, 128, 217, 0, 255, 129, 128, 0, 255, 128, 128, 0, 255] := by
  have hr : List.range (2 * 2) = [0, 1, 2, 3] := rfl
  have hms : (585948125 / 8589934592 : ℝ) ≠ 0 := by norm_num
  rw [updateShaderData, hr]
  simp only [List.flatMap_cons, List.flatMap_nil, List.append_nil, texelBytes]
  norm_num only
  rw [maxScale_2x2, pd_2x2_00, pd_2x2_10, pd_2x2_01, pd_2x2_11]
  have hb1 : encodeByte (585948125 / 4294967296) (585948125 / 8589934592) = 255 := by
    rw [encodeByte_of_ms_ne hms]
    exact clampToByte_of_ge (by norm_num)
  have hb0 : encodeByte 0 (585948125 / 8589934592) = 128 := by
    rw [encodeByte_of_ms_ne hms]
    have h := clampToByte_half_odd (v := ((0 : ℝ) / (585948125 / 8589934592) + 0.5) * 255)
      (n := 127) (by norm_num) (by norm_num) (by norm_num) (by decide)
    rw [h]
  have hb2 : encodeByte (102983643 / 4294967296) (585948125 / 8589934592) = 217 := by
    rw [encodeByte_of_ms_ne hms]
    exact clampToByte_round_down (n := 217) (by norm_num) (by norm_num) (by norm_num)
      (by norm_num)
  have hb3 : encodeByte (1612921 / 4294967296) (585948125 / 8589934592) = 129 := by
    rw [encodeByte_of_ms_ne hms]
    have h := clampToByte_round_up (v := ((1612921 / 4294967296 : ℝ) /
        (585948125 / 8589934592) + 0.5) * 255) (n := 128)
      (by norm_num) (by norm_num) (by norm_num) (by norm_num)
    rw [h]
  rw [hb1, hb0, hb2, hb3]
  rfl

/-! ### The rounded rectangle of the specification

Modelled from the words of the specification ("the rounded rectangle with
half-extents `(0.3, 0.2)` and corner radius `elasticity`"): the rounded
rectangle with half-extents `(a, b)` and corner radius `ρ` is the
`ρ`-neighbourhood of its inner rectangle, the axis-aligned rectangle with
half-extents `(a - ρ, b - ρ)`.  A point is strictly inside when it is at
squared euclidean distance `< ρ²` of some point of the inner rectangle, on
the boundary when its least squared distance to the inner rectangle is
exactly `ρ²`, and strictly outside when every point of the inner rectangle
is at squared distance `> ρ²`. -/

def innerRectPt (a b ρ cx cy : ℝ) : Prop :=
  |cx| ≤ a - ρ ∧ |cy| ≤ b - ρ

def strictlyInsideRR (a b ρ x y : ℝ) : Prop :=
  ∃ cx cy, innerRectPt a b ρ cx cy ∧ (x - cx) ^ 2 + (y - cy) ^ 2 < ρ ^ 2

def onBoundaryRR (a b ρ x y : ℝ) : Prop :=
  (∃ cx cy, innerRectPt a b ρ cx cy ∧ (x - cx) ^ 2 + (y - cy) ^ 2 = ρ ^ 2) ∧
  ∀ cx cy, innerRectPt a b ρ cx cy → ρ ^ 2 ≤ (x - cx) ^ 2 + (y - cy) ^ 2

def strictlyOutsideRR (a b ρ x y : ℝ) : Prop :=
  ∀ cx cy, innerRectPt a b ρ cx cy → ρ ^ 2 < (x - cx) ^ 2 + (y - cy) ^ 2

/-- Clamping a coordinate into the interval `[-A, A]` — the projection onto
the inner rectangle, coordinate by coordinate. -/
noncomputable def clampTo (A x : ℝ) : ℝ := max (-A) (min A x)

lemma abs_clampTo_le {A : ℝ} (hA : 0 ≤ A) (x : ℝ) : |clampTo A x| ≤ A := by
  rw [abs_le, clampTo]
  constructor
  · exact le_max_left _ _
  · exact max_le (by linarith) (min_le_left _ _)

lemma clampTo_dist_sq {A : ℝ} (hA : 0 ≤ A) (x : ℝ) :
    (x - clampTo A x) ^ 2 = max (|x| - A) 0 ^ 2 := by
  rcases le_total x (-A) with hle | hge
  · have hcl : clampTo A x = -A := by
      rw [clampTo, min_eq_right (by linarith), max_eq_left hle]
    have habs : |x| = -x := abs_of_nonpos (by linarith)
    rw [hcl, habs, max_eq_left (by linarith)]
    ring
  · rcases le_total A x with hle2 | hle2
    · have hcl : clampTo A x = A := by
        rw [clampTo, min_eq_left hle2, max_eq_right (by linarith)]
      have habs : |x| = x := abs_of_nonneg (by linarith)
      rw [hcl, habs, max_eq_left (by linarith)]
    · have hcl : clampTo A x = x := by
        rw [clampTo, min_eq_right hle2, max_eq_right hge]
      have habs : |x| ≤ A := abs_le.mpr ⟨hge, hle2⟩
      rw [hcl, max_eq_right (by linarith)]
      ring

lemma dist_sq_ge {A x c : ℝ} (hc : |c| ≤ A) :
    max (|x| - A) 0 ^ 2 ≤ (x - c) ^ 2 := by
  rcases le_total (|x|) A with hle | hle
  · rw [max_eq_right (by linarith)]
    simpa using sq_nonneg (x - c)
  · rw [max_eq_left (by linarith)]
    have h1 : |x| - A ≤ |x - c| := by
      have h2 := abs_sub_abs_le_abs_sub x c
      linarith
    calc (|x| - A) ^ 2 ≤ |x - c| ^ 2 := by
          apply pow_le_pow_left₀ (by linarith) h1
    _ = (x - c) ^ 2 := sq_abs _

/-- Sign characterization of `roundedRectSDF` against the geometric rounded
rectangle, valid whenever the corner radius does not exceed the smaller
half-extent (`0 < ρ ≤ 0.2`). -/
theorem roundedRectSDF_sign (ρ x y : ℝ) (hρ : 0 < ρ) (hρ2 : ρ ≤ 0.2) :
    (strictlyInsideRR 0.3 0.2 ρ x y ↔ roundedRectSDF x y 0.3 0.2 ρ < 0) ∧
    (onBoundaryRR 0.3 0.2 ρ x y ↔ roundedRectSDF x y 0.3 0.2 ρ = 0) ∧
    (strictlyOutsideRR 0.3 0.2 ρ x y ↔ 0 < roundedRectSDF x y 0.3 0.2 ρ) := by
  set A := (0.3 : ℝ) - ρ with hA_def
  set B := (0.2 : ℝ) - ρ with hB_def
  have hA : 0 ≤ A := by rw [hA_def]; norm_num; linarith
  have hB : 0 ≤ B := by rw [hB_def]; norm_num; linarith
  set px := clampTo A x with hpx_def
  set py := clampTo B y with hpy_def
  set mx := max (|x| - A) 0 with hmx_def
  set my := max (|y| - B) 0 with hmy_def
  have hqx : |x| - 0.3 + ρ = |x| - A := by rw [hA_def]; ring
  have hqy : |y| - 0.2 + ρ = |y| - B := by rw [hB_def]; ring
  have hsdf : roundedRectSDF x y 0.3 0.2 ρ =
      min (max (|x| - A) (|y| - B)) 0 + Real.sqrt (mx * mx + my * my) - ρ := by
    simp only [roundedRectSDF, length, hqx, hqy]
  have hD : mx ^ 2 + my ^ 2 = (x - px) ^ 2 + (y - py) ^ 2 := by
    rw [hpx_def, hpy_def, clampTo_dist_sq hA x, clampTo_dist_sq hB y]
  have hproj : innerRectPt 0.3 0.2 ρ px py := by
    simp only [innerRectPt]
    rw [← hA_def, ← hB_def]
    exact ⟨abs_clampTo_le hA x, abs_clampTo_le hB y⟩
  have hLB : ∀ cx cy, innerRectPt 0.3 0.2 ρ cx cy →
      mx ^ 2 + my ^ 2 ≤ (x - cx) ^ 2 + (y - cy) ^ 2 := by
    intro cx cy hc
    simp only [innerRectPt] at hc
    rw [← hA_def, ← hB_def] at hc
    exact add_le_add (dist_sq_ge hc.1) (dist_sq_ge hc.2)
  have hDnn : 0 ≤ mx ^ 2 + my ^ 2 := by positivity
  have hin : strictlyInsideRR 0.3 0.2 ρ x y ↔ mx ^ 2 + my ^ 2 < ρ ^ 2 := by
    constructor
    · rintro ⟨cx, cy, hc, hd⟩
      exact lt_of_le_of_lt (hLB cx cy hc) hd
    · intro hlt
      refine ⟨px, py, hproj, ?_⟩
      rw [← hD]
      exact hlt
  have hout : strictlyOutsideRR 0.3 0.2 ρ x y ↔ ρ ^ 2 < mx ^ 2 + my ^ 2 := by
    constructor
    · intro hall
      have h := hall px py hproj
      rwa [← hD] at h
    · intro hlt cx cy hc
      exact lt_of_lt_of_le hlt (hLB cx cy hc)
  have hbd : onBoundaryRR 0.3 0.2 ρ x y ↔ mx ^ 2 + my ^ 2 = ρ ^ 2 := by
    constructor
    · rintro ⟨⟨cx, cy, hc, heq⟩, hall⟩
      have h1 : mx ^ 2 + my ^ 2 ≤ (x - cx) ^ 2 + (y - cy) ^ 2 := hLB cx cy hc
      have h2 := hall px py hproj
      rw [← hD] at h2
      linarith
    · intro heq
      constructor
      · refine ⟨px, py, hproj, ?_⟩
        rw [← hD]
        exact heq
      · intro cx cy hc
        have h1 := hLB cx cy hc
        linarith
  by_cases hcase : |x| - A ≤ 0 ∧ |y| - B ≤ 0
  · have hmx : mx = 0 := by rw [hmx_def]; exact max_eq_right hcase.1
    have hmy : my = 0 := by rw [hmy_def]; exact max_eq_right hcase.2
    have hsqrt : Real.sqrt (mx * mx + my * my) = 0 := by
      rw [hmx, hmy]
      norm_num
    have hmin : min (max (|x| - A) (|y| - B)) 0 = max (|x| - A) (|y| - B) :=
      min_eq_left (max_le hcase.1 hcase.2)
    have hmax_le : max (|x| - A) (|y| - B) ≤ 0 := max_le hcase.1 hcase.2
    have hsdf_neg : roundedRectSDF x y 0.3 0.2 ρ < 0 := by
      rw [hsdf, hsqrt, hmin]
      linarith
    have hD0 : mx ^ 2 + my ^ 2 = 0 := by rw [hmx, hmy]; ring
    refine ⟨?_, ?_, ?_⟩
    · rw [hin]
      exact iff_of_true (by rw [hD0]; positivity) hsdf_neg
    · rw [hbd]
      refine iff_of_false ?_ (ne_of_lt hsdf_neg)
      rw [hD0]
      intro hc
      have := pow_pos hρ 2
      exact absurd hc.symm (ne_of_gt this)
    · rw [hout]
      refine iff_of_false ?_ (not_lt.mpr (le_of_lt hsdf_neg))
      rw [hD0]
      intro hc
      have := pow_pos hρ 2
      linarith
  · push_neg at hcase
    have hmaxpos : 0 < max (|x| - A) (|y| - B) := by
      rcases le_or_lt (|x| - A) 0 with hle | hlt
      · exact lt_max_of_lt_right (hcase hle)
      · exact lt_max_of_lt_left hlt
    have hmin : min (max (|x| - A) (|y| - B)) 0 = 0 := min_eq_right (le_of_lt hmaxpos)
    have hsdf2 : roundedRectSDF x y 0.3 0.2 ρ = Real.sqrt (mx ^ 2 + my ^ 2) - ρ := by
      rw [hsdf, hmin]
      have hxx : mx * mx + my * my = mx ^ 2 + my ^ 2 := by ring
      rw [hxx]
      ring
    refine ⟨?_, ?_, ?_⟩
    · rw [hin, hsdf2, sub_neg]
      exact (Real.sqrt_lt' hρ).symm
    · rw [hbd, hsdf2, sub_eq_zero]
      exact (Real.sqrt_eq_iff_eq_sq hDnn (le_of_lt hρ)).symm
    · rw [hout, hsdf2, sub_pos]
      exact (Real.lt_sqrt (le_of_lt hρ)).symm

/-- `roundedRectSDF` is invariant under negating both coordinates (it only
reads them through `|·|`). -/
lemma roundedRectSDF_neg_neg (u v a b r : ℝ) :
    roundedRectSDF (-u) (-v) a b r = roundedRectSDF u v a b r := by
  simp only [roundedRectSDF, abs_neg]

/-! ### The claims -/

/-- C1 (counterexample): at `(w, h, elasticity) = (4, 2, 1/10)` the pixel
`(1, 1)` lies strictly inside the glass shape (its SDF value is negative),
its weight `scaled` equals `1` exactly, and the pixel is off-center — yet
its displacement is exactly `(0, 0)`.  So pixels inside the shape (where
`scaled` is near `1`) are NOT displaced toward the center proportionally to
`scaled`: the displacement vanishes as `scaled → 1` and it is the pixels
with small `scaled` that are pulled toward the center. -/
theorem C1_counterexample :
    roundedRectSDF (((1 : ℕ) : ℝ) / 4 - 0.5) (((1 : ℕ) : ℝ) / 2 - 0.5)
        0.3 0.2 (1 / 10) < 0 ∧
    scaledWeight 4 2 (1 / 10) 1 1 = 1 ∧
    (1 : ℝ) - (4 : ℝ) / 2 ≠ 0 ∧
    pixelDisplacement 4 2 (1 / 10) 1 1 = (0, 0) := by
  refine ⟨?_, scaled_4x2_11, by norm_num, pd_4x2_11⟩
  have hx : ((1 : ℕ) : ℝ) / 4 - 0.5 = -(1 / 4) := by push_cast; norm_num
  have hy : ((1 : ℕ) : ℝ) / 2 - 0.5 = 0 := by push_cast; norm_num
  rw [hx, hy, sdf_inside_q]
  norm_num

/-- C1 (amended): for every pixel, `pos = (ix·scaled + 0.5, iy·scaled + 0.5)`
gives `dx = (x - w/2)·(scaled - 1)` and `dy = (y - h/2)·(scaled - 1)`:
pixels inside the glass shape (where `scaled` is near `1`) have near-zero
displacement (exactly zero when `scaled = 1`), while pixels outside (where
`scaled` is smaller) are displaced toward the center proportionally to
`1 - scaled`. -/
theorem C1_amended_displacement (w h : ℕ) (e : ℝ) (x y : ℕ)
    (hw : 1 ≤ w) (hh : 1 ≤ h) :
    pixelDisplacement w h e x y =
      (((x : ℝ) - (w : ℝ) / 2) * (scaledWeight w h e x y - 1),
       ((y : ℝ) - (h : ℝ) / 2) * (scaledWeight w h e x y - 1)) ∧
    (scaledWeight w h e x y = 1 → pixelDisplacement w h e x y = (0, 0)) := by
  have hf := pixelDisplacement_factored w h e x y (by omega) (by omega)
  refine ⟨hf, fun hs => ?_⟩
  rw [hf, hs]
  norm_num

theorem C1_amended_displacement_witness :
    pixelDisplacement 4 2 (1 / 10) 1 1 =
      ((((1 : ℕ) : ℝ) - ((4 : ℕ) : ℝ) / 2) * (scaledWeight 4 2 (1 / 10) 1 1 - 1),
       (((1 : ℕ) : ℝ) - ((2 : ℕ) : ℝ) / 2) * (scaledWeight 4 2 (1 / 10) 1 1 - 1)) ∧
    (scaledWeight 4 2 (1 / 10) 1 1 = 1 →
      pixelDisplacement 4 2 (1 / 10) 1 1 = (0, 0)) :=
  C1_amended_displacement 4 2 (1 / 10) 1 1 (by norm_num) (by norm_num)

/-- C2: the degenerate-normalization case is NOT handled by the code.  The
degenerate input `displacementScale = 0` forces `maxScale = 0` for every
`(w, h, elasticity)`; at `w = h = 1`, `elasticity = 1/10` the raw
displacement of the single pixel is positive on both axes, so the encoding
pass computes `dx / maxScale = dx / 0 = +Infinity` under IEEE semantics and
each channel byte is the `255` produced by the `maxScale = 0`, `raw > 0`
branch of `encodeByte` — a saturation of `Infinity`, not the result of an
epsilon floor on `maxScale` or of bypassing the encode for the frame. -/
theorem C2_division_by_zero :
    (∀ (w h : ℕ) (e : ℝ), maxScale w h e 0 = 0) ∧
    0 < (pixelDisplacement 1 1 (1 / 10) 0 0).1 ∧
    0 < (pixelDisplacement 1 1 (1 / 10) 0 0).2 ∧
    encodeByte (pixelDisplacement 1 1 (1 / 10) 0 0).1 (maxScale 1 1 (1 / 10) 0) = 255 ∧
    encodeByte (pixelDisplacement 1 1 (1 / 10) 0 0).2 (maxScale 1 1 (1 / 10) 0) = 255 ∧
    updateShaderData 1 1 (1 / 10) 0 = [255, 255, 0, 255] := by
  have hms : ∀ (w h : ℕ) (e : ℝ), maxScale w h e 0 = 0 := by
    intro w h e
    rw [maxScale]
    ring
  have hdx : 0 < (pixelDisplacement 1 1 (1 / 10) 0 0).1 := by
    rw [pd_1x1_00]
    norm_num
  have hdy : 0 < (pixelDisplacement 1 1 (1 / 10) 0 0).2 := by
    rw [pd_1x1_00]
    norm_num
  refine ⟨hms, hdx, hdy, ?_, ?_, shader_1x1_ds0⟩
  · rw [hms 1 1 (1 / 10)]
    exact encodeByte_ms_zero_pos hdx
  · rw [hms 1 1 (1 / 10)]
    exact encodeByte_ms_zero_pos hdy

/-- C3: `maxScale` is `(0.5 · displacementScale)` times the maximum over all
pixels of `max(|dx|, |dy|)` (it is an upper bound of the scaled per-pixel
maxima and is attained at some pixel), it is nonnegative, and decoding any
encoded channel byte via `(value/255 - 0.5) · maxScale` yields an absolute
value not exceeding `maxScale`. -/
theorem C3_maxScale_normalization (w h : ℕ) (e ds : ℝ)
    (hw : 1 ≤ w) (hh : 1 ≤ h) (hds : 0 ≤ ds) :
    0 ≤ maxScale w h e ds ∧
    (∀ i < w * h,
      max |(pixelDisplacement w h e (i % w) (i / w)).1|
          |(pixelDisplacement w h e (i % w) (i / w)).2| * (0.5 * ds) ≤
        maxScale w h e ds) ∧
    (∃ i < w * h,
      maxScale w h e ds =
        max |(pixelDisplacement w h e (i % w) (i / w)).1|
            |(pixelDisplacement w h e (i % w) (i / w)).2| * (0.5 * ds)) ∧
    ∀ b ∈ updateShaderData w h e ds,
      |((b : ℝ) / 255 - 0.5) * maxScale w h e ds| ≤ maxScale w h e ds := by
  have hds2 : 0 ≤ (0.5 : ℝ) * ds := by linarith
  have h0 : 0 ≤ maxScale w h e ds := by
    rw [maxScale]
    exact mul_nonneg (rawMaxScale_nonneg w h e) hds2
  refine ⟨h0, ?_, ?_, ?_⟩
  · intro i hi
    rw [maxScale]
    exact mul_le_mul_of_nonneg_right (le_rawMaxScale w h e hi) hds2
  · obtain ⟨i, hi, heq⟩ := rawMaxScale_attained w h e
      (by calc 1 = 1 * 1 := rfl
        _ ≤ w * h := Nat.mul_le_mul hw hh)
    exact ⟨i, hi, by rw [maxScale, heq]⟩
  · intro b hb
    have hble : b ≤ 255 := mem_flatMap_texel hb
    have hb0 : (0 : ℝ) ≤ (b : ℝ) := Nat.cast_nonneg b
    have hb255 : (b : ℝ) ≤ 255 := by exact_mod_cast hble
    have h1 : |(b : ℝ) / 255 - 0.5| ≤ 0.5 := by
      rw [abs_le]
      constructor
      · have : (0 : ℝ) ≤ (b : ℝ) / 255 := by positivity
        linarith
      · have : (b : ℝ) / 255 ≤ 1 := by
          rw [div_le_one (by norm_num)]
          exact hb255
        linarith
    calc |((b : ℝ) / 255 - 0.5) * maxScale w h e ds|
        = |(b : ℝ) / 255 - 0.5| * |maxScale w h e ds| := abs_mul _ _
      _ ≤ 0.5 * |maxScale w h e ds| :=
          mul_le_mul_of_nonneg_right h1 (abs_nonneg _)
      _ = 0.5 * maxScale w h e ds := by rw [abs_of_nonneg h0]
      _ ≤ maxScale w h e ds := by linarith

theorem C3_maxScale_normalization_witness :
    0 ≤ maxScale 2 2 (1 / 10) 1 ∧
    (∀ i < 2 * 2,
      max |(pixelDisplacement 2 2 (1 / 10) (i % 2) (i / 2)).1|
          |(pixelDisplacement 2 2 (1 / 10) (i % 2) (i / 2)).2| * (0.5 * 1) ≤
        maxScale 2 2 (1 / 10) 1) ∧
    (∃ i < 2 * 2,
      maxScale 2 2 (1 / 10) 1 =
        max |(pixelDisplacement 2 2 (1 / 10) (i % 2) (i / 2)).1|
            |(pixelDisplacement 2 2 (1 / 10) (i % 2) (i / 2)).2| * (0.5 * 1)) ∧
    ∀ b ∈ updateShaderData 2 2 (1 / 10) 1,
      |((b : ℝ) / 255 - 0.5) * maxScale 2 2 (1 / 10) 1| ≤ maxScale 2 2 (1 / 10) 1 :=
  C3_maxScale_normalization 2 2 (1 / 10) 1 (by norm_num) (by norm_num) (by norm_num)

/-- C4: the produced buffer has exactly `4·w·h` bytes. -/
theorem C4_buffer_length (w h : ℕ) (e ds : ℝ) (hw : 1 ≤ w) (hh : 1 ≤ h) :
    (updateShaderData w h e ds).length = 4 * (w * h) := by
  rw [updateShaderData, flatMap_length_four _ (texelBytes_length w h e ds),
    List.length_range]

theorem C4_buffer_length_witness :
    (updateShaderData 2 2 (1 / 10) 1).length = 4 * (2 * 2) :=
  C4_buffer_length 2 2 (1 / 10) 1 (by norm_num) (by norm_num)

/-- C5: for every texel, the third byte (blue) is `0` and the fourth byte
(alpha) is `255`, for any input. -/
theorem C5_blue_zero_alpha_full (w h : ℕ) (e ds : ℝ) {p : ℕ} (hp : p < w * h) :
    (updateShaderData w h e ds)[4 * p + 2]? = some 0 ∧
    (updateShaderData w h e ds)[4 * p + 3]? = some 255 := by
  have h2 := getElem_flatMap_four (texelBytes w h e ds) (texelBytes_length w h e ds)
    (List.range (w * h)) p 2 (by omega)
  have h3 := getElem_flatMap_four (texelBytes w h e ds) (texelBytes_length w h e ds)
    (List.range (w * h)) p 3 (by omega)
  have hp2 : (List.range (w * h))[p]? = some p := by
    simp [List.getElem?_range, hp]
  rw [updateShaderData, h2, h3, hp2]
  constructor <;> simp [texelBytes]

theorem C5_blue_zero_alpha_full_witness :
    (updateShaderData 2 2 (1 / 10) 1)[4 * 0 + 2]? = some 0 ∧
    (updateShaderData 2 2 (1 / 10) 1)[4 * 0 + 3]? = some 255 :=
  C5_blue_zero_alpha_full 2 2 (1 / 10) 1 (by norm_num)

/-- C6 (counterexample): on the square instance `w = h = 2`,
`elasticity = 1/10`, `displacementScale = 1`, the texels `(x, y) = (0, 0)`
and `(w-1-x, h-1-y) = (1, 1)` have `r` bytes `255` (buffer index `0`) and
`128` (buffer index `12`), so `r(x,y) + r(w-1-x,h-1-y) = 255/255 + 128/255`
differs from `1` by `128/255 ≈ 0.502` — far beyond any float/quantization
tolerance.  (The code samples `uv = x/w`, not pixel centers, so the
buffer's 180° symmetry pairs `(x, y)` with `(w-x, h-y)`, not with
`(w-1-x, h-1-y)`.) -/
theorem C6_counterexample :
    (updateShaderData 2 2 (1 / 10) 1)[0]? = some 255 ∧
    (updateShaderData 2 2 (1 / 10) 1)[12]? = some 128 ∧
    ¬|((255 : ℝ) / 255 + (128 : ℝ) / 255) - 1| ≤ 1 / 100 := by
  refine ⟨by rw [shader_2x2]; rfl, by rw [shader_2x2]; rfl, ?_⟩
  have hval : ((255 : ℝ) / 255 + (128 : ℝ) / 255) - 1 = 128 / 255 := by norm_num
  rw [hval, abs_of_nonneg (by norm_num)]
  norm_num

/-- C6 (amended): the encoded displacement field is antisymmetric under the
180° rotation that pairs pixel `(x, y)` with pixel `(w - x, h - y)` (for
`1 ≤ x < w`, `1 ≤ y < h`; the code samples `uv = x/w`, so pixel `x` mirrors
pixel `w - x`, not `w - 1 - x`): the raw displacements negate each other
exactly, and the unclamped channel values `raw/maxScale + 0.5` of the two
pixels sum to exactly `1` on each axis. -/
theorem C6_rotation_antisymmetry (n : ℕ) (e ds : ℝ) (x y : ℕ)
    (hn : 1 ≤ n) (hx1 : 1 ≤ x) (hx2 : x < n) (hy1 : 1 ≤ y) (hy2 : y < n) :
    (pixelDisplacement n n e (n - x) (n - y)).1 =
      -(pixelDisplacement n n e x y).1 ∧
    (pixelDisplacement n n e (n - x) (n - y)).2 =
      -(pixelDisplacement n n e x y).2 ∧
    ((pixelDisplacement n n e x y).1 / maxScale n n e ds + 0.5) +
      ((pixelDisplacement n n e (n - x) (n - y)).1 / maxScale n n e ds + 0.5) = 1 ∧
    ((pixelDisplacement n n e x y).2 / maxScale n n e ds + 0.5) +
      ((pixelDisplacement n n e (n - x) (n - y)).2 / maxScale n n e ds + 0.5) = 1 := by
  have hn0 : n ≠ 0 := by omega
  have hnr : ((n : ℝ)) ≠ 0 := Nat.cast_ne_zero.mpr hn0
  have hix : ((n - x : ℕ) : ℝ) / n - 0.5 = -((x : ℝ) / n - 0.5) := by
    rw [Nat.cast_sub (le_of_lt hx2)]
    field_simp
    ring
  have hiy : ((n - y : ℕ) : ℝ) / n - 0.5 = -((y : ℝ) / n - 0.5) := by
    rw [Nat.cast_sub (le_of_lt hy2)]
    field_simp
    ring
  have hsw : scaledWeight n n e (n - x) (n - y) = scaledWeight n n e x y := by
    rw [scaledWeight_eval (-((x : ℝ) / n - 0.5)) (-((y : ℝ) / n - 0.5)) hix hiy,
      roundedRectSDF_neg_neg,
      ← scaledWeight_eval (w := n) (h := n) (e := e) (x := x) (y := y)
        ((x : ℝ) / n - 0.5) ((y : ℝ) / n - 0.5) rfl rfl]
  have hf1 := pixelDisplacement_factored n n e x y hn0 hn0
  have hf2 := pixelDisplacement_factored n n e (n - x) (n - y) hn0 hn0
  have hcx : ((n - x : ℕ) : ℝ) = (n : ℝ) - (x : ℝ) := Nat.cast_sub (le_of_lt hx2)
  have hcy : ((n - y : ℕ) : ℝ) = (n : ℝ) - (y : ℝ) := Nat.cast_sub (le_of_lt hy2)
  rw [hf1, hf2, hsw]
  refine ⟨?_, ?_, ?_, ?_⟩ <;> rw [hcx, hcy] <;> ring

theorem C6_rotation_antisymmetry_witness :
    (pixelDisplacement 2 2 (1 / 10) (2 - 1) (2 - 1)).1 =
      -(pixelDisplacement 2 2 (1 / 10) 1 1).1 ∧
    (pixelDisplacement 2 2 (1 / 10) (2 - 1) (2 - 1)).2 =
      -(pixelDisplacement 2 2 (1 / 10) 1 1).2 ∧
    ((pixelDisplacement 2 2 (1 / 10) 1 1).1 / maxScale 2 2 (1 / 10) 1 + 0.5) +
      ((pixelDisplacement 2 2 (1 / 10) (2 - 1) (2 - 1)).1 /
        maxScale 2 2 (1 / 10) 1 + 0.5) = 1 ∧
    ((pixelDisplacement 2 2 (1 / 10) 1 1).2 / maxScale 2 2 (1 / 10) 1 + 0.5) +
      ((pixelDisplacement 2 2 (1 / 10) (2 - 1) (2 - 1)).2 /
        maxScale 2 2 (1 / 10) 1 + 0.5) = 1 :=
  C6_rotation_antisymmetry 2 (1 / 10) 1 1 1 (by norm_num) (by norm_num)
    (by norm_num) (by norm_num) (by norm_num)

/-- C7 (counterexample): for `elasticity = 0.6` — inside the claimed
nominal range `(0, 1]`, and the default value used by the component — the
rounded rectangle with half-extents `(0.3, 0.2)` and corner radius `0.6`
has an empty inner rectangle (its half-extents `0.3 - 0.6` and `0.2 - 0.6`
are negative), so the center `(0, 0)` is (vacuously) strictly outside it;
the claim then demands a positive SDF there, but the SDF value is
`-0.1 < 0`. -/
theorem C7_counterexample :
    strictlyOutsideRR 0.3 0.2 0.6 0 0 ∧
    roundedRectSDF 0 0 0.3 0.2 0.6 < 0 := by
  constructor
  · intro cx cy hc
    exfalso
    have h1 : (0 : ℝ) ≤ |cx| := abs_nonneg _
    have h2 : |cx| ≤ 0.3 - 0.6 := hc.1
    linarith
  · have h := roundedRectSDF_eval 0 0 0.6 (3 / 10) (2 / 5) 0 (1 / 2)
      (by norm_num [abs_of_nonneg]) (by norm_num [abs_of_nonneg]) (by norm_num)
      (by norm_num) (by norm_num)
    rw [h]
    norm_num

theorem roundedRectSDF_sign_witness :
    (strictlyInsideRR 0.3 0.2 (1 / 10) 0 0 ↔
      roundedRectSDF 0 0 0.3 0.2 (1 / 10) < 0) ∧
    (onBoundaryRR 0.3 0.2 (1 / 10) 0 0 ↔
      roundedRectSDF 0 0 0.3 0.2 (1 / 10) = 0) ∧
    (strictlyOutsideRR 0.3 0.2 (1 / 10) 0 0 ↔
      0 < roundedRectSDF 0 0 0.3 0.2 (1 / 10)) :=
  roundedRectSDF_sign (1 / 10) 0 0 (by norm_num) (by norm_num)

/-- C8: the generator is a deterministic pure function of
`(w, h, elasticity, displacementScale)`: two invocations with identical
inputs produce byte-identical buffers and identical `maxScale` values. -/
theorem C8_deterministic (w1 h1 : ℕ) (e1 ds1 : ℝ) (w2 h2 : ℕ) (e2 ds2 : ℝ)
    (hw : w1 = w2) (hh : h1 = h2) (he : e1 = e2) (hds : ds1 = ds2) :
    updateShaderData w1 h1 e1 ds1 = updateShaderData w2 h2 e2 ds2 ∧
    maxScale w1 h1 e1 ds1 = maxScale w2 h2 e2 ds2 := by
  subst hw
  subst hh
  subst he
  subst hds
  exact ⟨rfl, rfl⟩

theorem C8_deterministic_witness :
    updateShaderData 2 2 (1 / 10) 1 = updateShaderData 2 2 (1 / 10) 1 ∧
    maxScale 2 2 (1 / 10) 1 = maxScale 2 2 (1 / 10) 1 :=
  C8_deterministic 2 2 (1 / 10) 1 2 2 (1 / 10) 1 rfl rfl rfl rfl

/-- C9: each smoothstep clamps its ratio `(t - a)/(b - a)` to `[0, 1]` and
applies `t²(3 - 2t)`; both chained applications — including the first one
`smoothStep(0.8, 0, ·)` whose interval endpoints are in decreasing order —
land in `[0, 1]`, so the weight `scaled` lies in `[0, 1]` for every pixel
of every input. -/
theorem C9_smoothstep_clamped_range :
    (∀ a b t : ℝ, smoothStep a b t =
      max 0 (min 1 ((t - a) / (b - a))) * max 0 (min 1 ((t - a) / (b - a))) *
        (3 - 2 * max 0 (min 1 ((t - a) / (b - a))))) ∧
    (∀ t : ℝ, 0 ≤ smoothStep 0.8 0 t ∧ smoothStep 0.8 0 t ≤ 1) ∧
    (∀ t : ℝ, 0 ≤ smoothStep 0 1 t ∧ smoothStep 0 1 t ≤ 1) ∧
    ∀ (w h : ℕ) (e : ℝ) (x y : ℕ),
      0 ≤ scaledWeight w h e x y ∧ scaledWeight w h e x y ≤ 1 :=
  ⟨fun _ _ _ => rfl, fun t => smoothStep_bounds 0.8 0 t,
    fun t => smoothStep_bounds 0 1 t,
    fun w h e x y => scaledWeight_bounds w h e x y⟩

/-- C10: every byte of the output buffer is in range (the buffer holds
natural numbers `≤ 255`), because `Uint8ClampedArray` stores saturate:
finite encoded values above `255` store as `255`, values below `0` store as
`0`, and the non-finite values arising from `maxScale = 0` store as `0`
(`NaN`) or as a range end (`±Infinity`) — never as a wrapped byte. -/
theorem C10_bytes_in_range (w h : ℕ) (e ds : ℝ) :
    (∀ b ∈ updateShaderData w h e ds, b ≤ 255) ∧
    (∀ raw ms : ℝ, ms ≠ 0 → 255 ≤ (raw / ms + 0.5) * 255 →
      encodeByte raw ms = 255) ∧
    (∀ raw ms : ℝ, ms ≠ 0 → (raw / ms + 0.5) * 255 ≤ 0 →
      encodeByte raw ms = 0) ∧
    ∀ raw : ℝ, encodeByte raw 0 = 0 ∨ encodeByte raw 0 = 255 := by
  refine ⟨fun _ hb => mem_flatMap_texel hb, ?_, ?_, ?_⟩
  · intro raw ms hms hge
    rw [encodeByte_of_ms_ne hms]
    exact clampToByte_of_ge hge
  · intro raw ms hms hle
    rw [encodeByte_of_ms_ne hms]
    exact clampToByte_of_nonpos hle
  · intro raw
    rw [encodeByte, if_pos rfl]
    split
    · exact Or.inl rfl
    · split
      · exact Or.inr rfl
      · exact Or.inl rfl

theorem C10_bytes_in_range_witness :
    255 ∈ updateShaderData 1 1 (1 / 10) 0 ∧ (255 : ℕ) ≤ 255 := by
  have hm : 255 ∈ updateShaderData 1 1 (1 / 10) 0 := by
    rw [shader_1x1_ds0]
    simp
  exact ⟨hm, (C10_bytes_in_range 1 1 (1 / 10) 0).1 255 hm⟩

end LiquidGlass
